import Mathlib

/-
  Verification development for the Cai-Installer-Gui repository.

  The definitions below are a shallow embedding of src/backend_gui.py.
  Bytes are modelled as natural numbers below 256, byte strings as lists;
  the two external library calls of the container decoder (zlib inflate and
  UTF-8 decoding) are abstracted as function parameters, since only their
  success or failure shapes the control flow under scrutiny.  Text handling
  is modelled over ASCII: Python additionally accepts certain Unicode
  digit, word and space characters in str.isdigit and in regular
  expressions, which none of the checked properties depend on.
-/

namespace Cai

/-- Little-endian 32-bit value from four bytes, as produced by
struct.unpack with format III over the 12-byte header. -/
def le32 (b0 b1 b2 b3 : Nat) : Nat :=
  b0 + 256 * b1 + 65536 * b2 + 16777216 * b3

/-- Byte access into a byte list (defaulting to 0; all used indices are
guarded to be in range). -/
def byteAt (l : List Nat) (i : Nat) : Nat := l.getD i 0

/-- The single error type of the container decoder: every failure of
STConverter.parse_st_file surfaces as the one Python ValueError; the
constructors record which step failed. -/
inductive STError where
  | headerShort
  | payloadShort
  | inflateFailed
  | notUtf8
deriving DecidableEq

/-- The effective XOR key of parse_st_file: xorkey from header bytes 0..3,
then xorkey ^= 0xFFFEA4C8 and xorkey &= 0xFF (backend_gui.py lines 73-75). -/
def st_key (content : List Nat) : Nat :=
  Nat.land
    (Nat.xor (le32 (byteAt content 0) (byteAt content 1) (byteAt content 2) (byteAt content 3))
      0xFFFEA4C8)
    0xFF

/-- Declared payload size: header bytes 4..7 of parse_st_file. -/
def st_size (content : List Nat) : Nat :=
  le32 (byteAt content 4) (byteAt content 5) (byteAt content 6) (byteAt content 7)

/-- The ciphertext slice content[12:12+size] of parse_st_file. -/
def st_encrypted (content : List Nat) : List Nat :=
  (content.drop 12).take (st_size content)

/-- The ciphertext after the per-byte XOR loop of parse_st_file. -/
def st_plain (content : List Nat) : List Nat :=
  (st_encrypted content).map (fun b => Nat.xor b (st_key content))

/-- Shallow embedding of STConverter.parse_st_file (backend_gui.py lines
63-92), with zlib.decompress and bytes.decode abstracted as the parameters
inflate and utf8 (none models the library raising zlib.error resp.
UnicodeDecodeError).  Every failure path of the source lands in the single
ValueError type, modelled by STError. -/
def parse_st_file (inflate : List Nat → Option (List Nat))
    (utf8 : List Nat → Option String) (content : List Nat) : Except STError String :=
  if content.length < 12 then .error .headerShort
  else if (st_encrypted content).length < st_size content then .error .payloadShort
  else
    match inflate (st_plain content) with
    | none => .error .inflateFailed
    | some decompressed =>
      match utf8 (decompressed.drop 512) with
      | none => .error .notUtf8
      | some s => .ok s

/-- The container-decoding algorithm exactly as the specification words it
(spec section 4.5, steps 1-6), written independently of the source for the
refinement check: read three little-endian 32-bit fields, derive the
effective key, fail when fewer bytes remain than the declared payload size,
XOR, inflate, skip 512 bytes, decode UTF-8. -/
def decode_spec (inflate : List Nat → Option (List Nat))
    (utf8 : List Nat → Option String) (raw : List Nat) : Except STError String :=
  if raw.length < 12 then .error .headerShort
  else
    let keySeed := le32 (byteAt raw 0) (byteAt raw 1) (byteAt raw 2) (byteAt raw 3)
    let payloadSize := le32 (byteAt raw 4) (byteAt raw 5) (byteAt raw 6) (byteAt raw 7)
    let effectiveKey := Nat.land (Nat.xor keySeed 0xFFFEA4C8) 0xFF
    if raw.length - 12 < payloadSize then .error .payloadShort
    else
      let ciphertext := (raw.drop 12).take payloadSize
      let plaintext := ciphertext.map (fun b => Nat.xor b effectiveKey)
      match inflate plaintext with
      | none => .error .inflateFailed
      | some inflated =>
        match utf8 (inflated.drop 512) with
        | none => .error .notUtf8
        | some text => .ok text

/-- C2: the container decoder reads the 12-byte little-endian header
(keySeed, payloadSize, reserved), computes effectiveKey =
(keySeed XOR 0xFFFEA4C8) AND 0xFF, XORs the next payloadSize bytes with
that key (failing when fewer bytes remain than declared), inflates,
discards 512 bytes and decodes UTF-8: the source function parse_st_file
coincides with the specification algorithm on every input, and on the
header (keySeed=1, payloadSize=16, reserved=0) the effective key is 0xC9. -/
theorem c2_decoder_refines_spec :
    (∀ (inflate : List Nat → Option (List Nat)) (utf8 : List Nat → Option String)
      (raw : List Nat), parse_st_file inflate utf8 raw = decode_spec inflate utf8 raw)
    ∧ st_key [1, 0, 0, 0, 16, 0, 0, 0, 0, 0, 0, 0] = 0xC9
    ∧ st_size [1, 0, 0, 0, 16, 0, 0, 0, 0, 0, 0, 0] = 16 := by
  refine ⟨?_, by decide, by decide⟩
  intro inflate utf8 raw
  unfold parse_st_file decode_spec
  simp only [st_plain, st_encrypted, st_key, st_size]
  by_cases h12 : raw.length < 12
  · simp [h12]
  · simp only [h12, if_false]
    have hmin : ((raw.drop 12).take
          (le32 (byteAt raw 4) (byteAt raw 5) (byteAt raw 6) (byteAt raw 7))).length <
          le32 (byteAt raw 4) (byteAt raw 5) (byteAt raw 6) (byteAt raw 7) ↔
        raw.length - 12 <
          le32 (byteAt raw 4) (byteAt raw 5) (byteAt raw 6) (byteAt raw 7) := by
      simp only [List.length_take, List.length_drop]
      omega
    by_cases hps : raw.length - 12 <
        le32 (byteAt raw 4) (byteAt raw 5) (byteAt raw 6) (byteAt raw 7)
    · rw [if_pos (hmin.mpr hps), if_pos hps]
    · rw [if_neg (fun h => hps (hmin.mp h)), if_neg hps]

/-- C10: for every input byte string the container decoder either returns
text or fails with the single FormatError type, and it fails exactly when
the input is shorter than 12 bytes, or the declared payload size exceeds
the remaining bytes, or the deflate stream is corrupt, or the inflated
content past the 512-byte skip is not valid UTF-8. -/
theorem c10_error_containment :
    ∀ (inflate : List Nat → Option (List Nat)) (utf8 : List Nat → Option String)
      (content : List Nat),
      (∃ e : STError, parse_st_file inflate utf8 content = .error e) ↔
        (content.length < 12
        ∨ (¬ content.length < 12 ∧ content.length - 12 < st_size content)
        ∨ (¬ content.length < 12 ∧ ¬ content.length - 12 < st_size content
            ∧ inflate (st_plain content) = none)
        ∨ (¬ content.length < 12 ∧ ¬ content.length - 12 < st_size content
            ∧ ∃ dec, inflate (st_plain content) = some dec
              ∧ utf8 (dec.drop 512) = none)) := by
  intro inflate utf8 content
  have hmin : (st_encrypted content).length < st_size content ↔
      content.length - 12 < st_size content := by
    simp only [st_encrypted, List.length_take, List.length_drop]
    omega
  unfold parse_st_file
  by_cases h12 : content.length < 12
  · simp [h12]
  · by_cases hps : content.length - 12 < st_size content
    · simp [h12, hmin.mpr hps, hps]
    · rw [if_neg h12, if_neg (fun h => hps (hmin.mp h))]
      cases hinf : inflate (st_plain content) with
      | none => simp [h12, hps, hinf]
      | some dec =>
        cases hu : utf8 (dec.drop 512) with
        | none => simp [h12, hps, hinf, hu]
        | some s => simp [h12, hps, hinf, hu]

/-- Bool test that s ends with the given suffix, over the character lists
(the Python str.endswith used throughout the source). -/
def str_ends_with (s suffix : String) : Bool :=
  suffix.data.isSuffixOf s.data

/-- True when a per-tree-entry task ended in an exception (the
isinstance(res, Exception) test of process_github_repo, line 584). -/
def except_failed (r : Except String (List (String × String))) : Bool :=
  match r with
  | .error _ => true
  | .ok _ => false

/-- The collected_depots accumulation of process_github_repo (lines
582-588): exceptions are logged and skipped, successful task results are
concatenated. -/
def collect_ok (results : List (Except String (List (String × String)))) :
    List (String × String) :=
  results.foldl
    (fun acc r =>
      match r with
      | .ok ds => acc ++ ds
      | .error _ => acc)
    []

/-- Shallow embedding of the aggregation skeleton of process_github_repo
(backend_gui.py lines 566-606): the tree is filtered for manifest entries
(failure when none), the per-entry task results are gathered with
return_exceptions=True and folded by collect_ok, and the identifier fails
exactly when no depot keys were collected; otherwise both unlocker branches
run to a success return. -/
def process_github_repo_agg (tree : List String)
    (results : List (Except String (List (String × String)))) : Bool :=
  let all_manifests := tree.filter (fun p => str_ends_with p ".manifest")
  if all_manifests.isEmpty then false
  else if (collect_ok results).isEmpty then false
  else true

/-- C1 counterexample: a batch where one per-entry task fails with an
exception while another succeeds with a depot key still returns success
for the identifier, refuting the claimed fail-fast aggregation. -/
theorem c1_counterexample :
    ([Except.error "boom",
        Except.ok [("481", "deadbeef")]].any except_failed = true)
    ∧ process_github_repo_agg ["480_abc.manifest", "key.vdf"]
        [Except.error "boom", Except.ok [("481", "deadbeef")]] = true := by
  constructor
  · rfl
  · decide

/-- Helper: skipping the failed task results does not change what
collect_ok accumulates. -/
theorem collect_ok_filter (results : List (Except String (List (String × String)))) :
    collect_ok (results.filter (fun r => !(except_failed r))) = collect_ok results := by
  unfold collect_ok
  suffices h : ∀ acc : List (String × String),
      (results.filter (fun r => !(except_failed r))).foldl
          (fun acc r => match r with | .ok ds => acc ++ ds | .error _ => acc) acc =
        results.foldl
          (fun acc r => match r with | .ok ds => acc ++ ds | .error _ => acc) acc from
    h []
  induction results with
  | nil => intro acc; rfl
  | cons r rest ih =>
    intro acc
    cases r with
    | ok ds => simpa [List.filter, except_failed] using ih (acc ++ ds)
    | error e => simpa [List.filter, except_failed] using ih acc

/-- C1 amended: process_github_repo aggregates best-effort, not fail-fast —
failed per-entry tasks are logged and skipped (removing them changes
nothing), and the identifier's processing fails exactly when the tree holds
no manifest entry or no depot keys were collected by the surviving tasks. -/
theorem c1_amended_best_effort (tree : List String)
    (results : List (Except String (List (String × String)))) :
    process_github_repo_agg tree results
      = process_github_repo_agg tree (results.filter (fun r => !(except_failed r)))
    ∧ (process_github_repo_agg tree results = true ↔
        (tree.filter (fun p => str_ends_with p ".manifest") ≠ []
          ∧ collect_ok results ≠ [])) := by
  constructor
  · simp only [process_github_repo_agg]
    rw [collect_ok_filter]
  · simp only [process_github_repo_agg]
    cases hm : (tree.filter (fun p => str_ends_with p ".manifest")).isEmpty with
    | true =>
      have hm' : tree.filter (fun p => str_ends_with p ".manifest") = [] := by
        cases h : tree.filter (fun p => str_ends_with p ".manifest") with
        | nil => rfl
        | cons a l => rw [h] at hm; simp at hm
      simp [hm, hm']
    | false =>
      have hm' : tree.filter (fun p => str_ends_with p ".manifest") ≠ [] := by
        intro h; rw [h] at hm; simp at hm
      cases hc : (collect_ok results).isEmpty with
      | true =>
        have hc' : collect_ok results = [] := by
          cases h : collect_ok results with
          | nil => rfl
          | cons a l => rw [h] at hc; simp at hc
        simp [hm, hc, hm', hc']
      | false =>
        have hc' : collect_ok results ≠ [] := by
          intro h; rw [h] at hc; simp at hc
        simp [hm, hc, hm', hc']

/-- ASCII word character, the re word class used in the manifest and
addappid patterns. -/
def isWordChar (c : Char) : Bool := c.isAlphanum || c = '_'

/-- ASCII whitespace of Python str.strip and the re whitespace class. -/
def isPySpace (c : Char) : Bool :=
  c = ' ' || c = '\t' || c = '\n' || c = '\r' || c = '\x0b' || c = '\x0c'

/-- Python str.strip(): remove leading and trailing whitespace. -/
def py_strip (s : String) : String :=
  String.mk (((s.data.dropWhile isPySpace).reverse.dropWhile isPySpace).reverse)

/-- Python str.isdigit() over ASCII: nonempty and all decimal digits. -/
def py_isdigit (s : String) : Bool := !s.data.isEmpty && s.data.all Char.isDigit

/-- re.search for a pattern of the shape literal-then-digit-group: at each
position, the literal must match and be followed by at least one digit; the
captured group is the maximal digit run.  This is exactly the leftmost-match
semantics of the three URL patterns of extract_app_id. -/
def search_lit_digits (lit : List Char) : List Char → Option String
  | [] => none
  | c :: rest =>
    if lit.isPrefixOf (c :: rest) then
      let ds := ((c :: rest).drop lit.length).takeWhile Char.isDigit
      if ds.isEmpty then search_lit_digits lit rest else some (String.mk ds)
    else search_lit_digits lit rest

/-- Shallow embedding of GuiBackend.extract_app_id (backend_gui.py lines
463-479): try the three URL patterns in order, then fall back to the
all-digits test, else None. -/
def extract_app_id (user_input : String) : Option String :=
  match search_lit_digits "store.steampowered.com/app/".data user_input.data with
  | some d => some d
  | none =>
    match search_lit_digits "steamdb.info/app/".data user_input.data with
    | some d => some d
    | none =>
      match search_lit_digits "steamcommunity.com/app/".data user_input.data with
      | some d => some d
      | none => if py_isdigit user_input then some user_input else none

/-- The dedup loop of resolve_appids (lines 496-501): keep the first
occurrence of each id, tracking a seen set. -/
def dedup_first_aux (seen : List String) : List String → List String
  | [] => []
  | x :: xs =>
    if x ∈ seen then dedup_first_aux seen xs
    else x :: dedup_first_aux (x :: seen) xs

/-- Deduplication preserving first-seen order. -/
def dedup_first (l : List String) : List String := dedup_first_aux [] l

/-- Shallow embedding of GuiBackend.resolve_appids (backend_gui.py lines
481-503): strip each input, skip blanks, extract an id, collect, then
deduplicate keeping the original order. -/
def resolve_appids (inputs : List String) : List String :=
  dedup_first (inputs.filterMap (fun item0 =>
    let item := py_strip item0
    if item = "" then none else extract_app_id item))

/-- The resolver pipeline exactly as claim C9 words it: extraction applied
to each raw element, unmatched elements skipped, duplicates removed keeping
the first occurrence — with no whitespace normalization step. -/
def resolveIds_claim (inputs : List String) : List String :=
  dedup_first (inputs.filterMap extract_app_id)

/-- C9 counterexample: on the input " 620 " (whitespace-padded digits) the
source resolver strips the element first and keeps it, while the pipeline
as claimed — extraction applied to the raw element — skips it, so the
claimed description of resolveIds differs from the code. -/
theorem c9_counterexample :
    resolve_appids [" 620 "] = ["620"] ∧ resolveIds_claim [" 620 "] = [] := by
  constructor
  · decide
  · decide

/-- Helper: the dedup loop yields results without duplicates, none of which
were already seen. -/
theorem dedup_first_aux_spec (l : List String) :
    ∀ seen, (dedup_first_aux seen l).Nodup
      ∧ ∀ x ∈ dedup_first_aux seen l, x ∉ seen := by
  induction l with
  | nil =>
    intro seen
    exact ⟨List.nodup_nil, by intro x hx; cases hx⟩
  | cons a xs ih =>
    intro seen
    by_cases h : a ∈ seen
    · simpa [dedup_first_aux, h] using ih seen
    · obtain ⟨ihn, ihs⟩ := ih (a :: seen)
      refine ⟨?_, ?_⟩
      · simp only [dedup_first_aux, h, if_false]
        refine List.nodup_cons.mpr ⟨?_, ihn⟩
        intro hmem
        exact (ihs a hmem) (List.mem_cons_self a seen)
      · intro x hx
        simp only [dedup_first_aux, h, if_false, List.mem_cons] at hx
        rcases hx with rfl | hx
        · exact h
        · intro hxs
          exact (ihs x hx) (List.mem_cons_of_mem a hxs)

/-- C9 amended: resolve_appids applies identifier extraction to each
whitespace-stripped element, skips elements that match no URL pattern and
are not all-digits, and removes duplicates preserving first-seen order; on
["620", "620", "620/store/app/620"] it returns exactly ["620"]. -/
theorem c9_amended_resolver :
    (∀ inputs, resolve_appids inputs
      = dedup_first (inputs.filterMap (fun s => extract_app_id (py_strip s))))
    ∧ (∀ inputs, (resolve_appids inputs).Nodup)
    ∧ resolve_appids ["620", "620", "620/store/app/620"] = ["620"] := by
  refine ⟨?_, ?_, by decide⟩
  · intro inputs
    unfold resolve_appids
    congr 1
    apply List.filterMap_congr
    intro s _
    by_cases h : py_strip s = ""
    · rw [h]
      simp [h]
      decide
    · simp [h]
  · intro inputs
    exact (dedup_first_aux_spec _ []).1

/-- One attempt of the manifest filename pattern (digit group, underscore,
word group, literal ".manifest") at the start of the given character list;
maximal runs model the greedy groups, which here never need backtracking. -/
def try_manifest (l : List Char) : Option (String × String) :=
  let ds := l.takeWhile Char.isDigit
  if ds.isEmpty then none
  else
    match l.drop ds.length with
    | '_' :: r2 =>
      let ws := r2.takeWhile isWordChar
      if ws.isEmpty then none
      else if ".manifest".data.isPrefixOf (r2.drop ws.length) then
        some (String.mk ds, String.mk ws)
      else none
    | _ => none

/-- re.search for the manifest filename pattern: try each start position
from the left. -/
def match_manifest_aux : List Char → Option (String × String)
  | [] => none
  | c :: rest =>
    match try_manifest (c :: rest) with
    | some r => some r
    | none => match_manifest_aux rest

/-- The manifest grammar depotId_manifestToken.manifest as matched by the
source (backend_gui.py lines 663 and 848). -/
def match_manifest (path : String) : Option (String × String) :=
  match_manifest_aux path.data

/-- The bootstrap directive line written first into every synthesized
script (line 658 and line 841). -/
def bootstrap_line (app_id : String) : String :=
  "addappid(" ++ (app_id ++ ", 1, \"None\")")

/-- A key-registration directive line (line 660 and line 844). -/
def addappid_line3 (depot_id key : String) : String :=
  "addappid(" ++ (depot_id ++ (", 1, \"" ++ (key ++ "\")")))

/-- A manifest-pin directive line (lines 664 and 849). -/
def manifest_pin_line (depot_id token : String) : String :=
  "setManifestid(" ++ (depot_id ++ (", \"" ++ (token ++ "\")")))

/-- The per-identifier unlock script, line by line, as written by both the
tree path (backend_gui.py lines 657-668) and the archive path (lines
840-853): bootstrap directive, one key directive per depot, and one
manifest-pin directive per matching manifest name — commented out exactly
when the version policy is floating. -/
def st_lua_lines (app_id : String) (depots : List (String × String))
    (all_manifests : List String) (is_floating : Bool) : List String :=
  bootstrap_line app_id ::
    (depots.map (fun p => addappid_line3 p.1 p.2)
      ++ all_manifests.filterMap (fun mf =>
          (match_manifest mf).map (fun dt =>
            if is_floating then "--" ++ manifest_pin_line dt.1 dt.2
            else manifest_pin_line dt.1 dt.2)))

/-- Outcome of the per-entry download in get_manifest_from_github: fail
models get_from_url raising; ok carries the result of vdf.loads on the
content when it is interpreted as a key file (none models the caught
UnicodeDecodeError/KeyError). -/
inductive GmFetch where
  | fail
  | ok (vdfDepots : Option (List (String × String)))
deriving DecidableEq

/-- Observable outcome of one get_manifest_from_github call: the depot
keys returned to the caller, the lua script written (if any), and whether
the manifest bytes were saved to the cache directories. -/
structure GmResult where
  depots : List (String × String)
  lua : Option (List String)
  savedManifest : Bool
deriving DecidableEq

/-- Substring test over character lists (the Python in operator on str). -/
def list_contains_sub : List Char → List Char → Bool
  | [], needle => needle.isEmpty
  | c :: t, needle => needle.isPrefixOf (c :: t) || list_contains_sub t needle

/-- Python str.lower over ASCII, as a character list. -/
def str_lower (s : String) : List Char := s.data.map Char.toLower

/-- Shallow embedding of GuiBackend.get_manifest_from_github
(backend_gui.py lines 612-675): manifest entries are skipped entirely in
ST auto-update mode; a failed download returns no keys; manifest entries
are saved to the caches; a path containing "key.vdf" (case-insensitively)
is parsed for depot keys and, under SteamTools with a nonempty app id,
triggers the per-identifier lua script write with floating policy
is_st_auto_update_mode and not st_lock_manifest_version. -/
def get_manifest_from_github
    (is_steamtools steamtools_only_lua st_lock_manifest_version : Bool)
    (path app_id : String) (all_manifests : List String) (fetch : GmFetch) : GmResult :=
  let is_st_auto := is_steamtools && steamtools_only_lua
  if str_ends_with path ".manifest" && is_st_auto then ⟨[], none, false⟩
  else
    match fetch with
    | .fail => ⟨[], none, false⟩
    | .ok vdfParse =>
      if str_ends_with path ".manifest" && !is_st_auto then ⟨[], none, true⟩
      else if list_contains_sub (str_lower path) "key.vdf".data then
        match vdfParse with
        | none => ⟨[], none, false⟩
        | some depots =>
          if is_steamtools && (app_id != "") then
            ⟨depots,
              some (st_lua_lines app_id depots all_manifests
                (is_st_auto && !st_lock_manifest_version)),
              false⟩
          else ⟨depots, none, false⟩
      else ⟨[], none, false⟩

/-- The archive-path script write of _process_zip_based_manifest
(backend_gui.py lines 798-855): under SteamTools the per-identifier lua is
always written from the scanned depot keys and the extracted manifest file
names, with the same floating-version rule; in the GreenLuma branch no
script is written. -/
def zip_st_script (is_steamtools steamtools_only_lua st_lock_manifest_version : Bool)
    (app_id : String) (all_depots : List (String × String))
    (manifest_names : List String) : Option (List String) :=
  if is_steamtools then
    some (st_lua_lines app_id all_depots manifest_names
      ((is_steamtools && steamtools_only_lua) && !st_lock_manifest_version))
  else none

/-- C3 counterexample: for identifier 480, tree manifest 480_abc.manifest,
key config naming depot 481 with key deadbeef, ScriptBased mode and Locked
policy, the synthesized script pins depot 480 (the id from the manifest
filename), not depot 481 as claimed: the claimed directive line is absent
from the script. -/
theorem c3_counterexample :
    (get_manifest_from_github true false false "key.vdf" "480" ["480_abc.manifest"]
        (GmFetch.ok (some [("481", "deadbeef")]))).lua
      = some ["addappid(480, 1, \"None\")", "addappid(481, 1, \"deadbeef\")",
          "setManifestid(480, \"abc\")"]
    ∧ "setManifestid(481, \"abc\")"
        ∉ ["addappid(480, 1, \"None\")", "addappid(481, 1, \"deadbeef\")",
            "setManifestid(480, \"abc\")"] := by
  constructor
  · decide
  · decide

/-- C3 amended: in the scenario of the claim the synthesized script
contains exactly a bootstrap directive for 480, a key directive for 481
with value deadbeef, and an active manifest-pin directive for 480 (the
depot id parsed from the manifest filename 480_abc.manifest) with token
abc; the parsed depot keys are returned to the caller. -/
theorem c3_amended_script :
    (get_manifest_from_github true false false "key.vdf" "480" ["480_abc.manifest"]
        (GmFetch.ok (some [("481", "deadbeef")])))
      = ⟨[("481", "deadbeef")],
          some [bootstrap_line "480", addappid_line3 "481" "deadbeef",
            manifest_pin_line "480" "abc"],
          false⟩ := by
  decide

/-- Two strings with different first characters differ. -/
theorem ne_of_head_ne {a b : String} (h : a.data.head? ≠ b.data.head?) : a ≠ b :=
  fun e => h (congrArg (fun s => s.data.head?) e)

/-- Bootstrap directives start with the character a. -/
theorem bootstrap_head (a : String) : (bootstrap_line a).data.head? = some 'a' := rfl

/-- Key directives start with the character a. -/
theorem add3_head (d k : String) : (addappid_line3 d k).data.head? = some 'a' := rfl

/-- Manifest-pin directives start with the character s. -/
theorem pin_head (d t : String) : (manifest_pin_line d t).data.head? = some 's' := rfl

/-- Commented lines start with the character -. -/
theorem comment_head (s : String) : ("--" ++ s).data.head? = some '-' := rfl

/-- Helper: a manifest whose name matches the pattern contributes its pin
directive to the synthesized script, commented exactly when the version
policy is floating and active exactly when it is locked. -/
theorem pin_mem_st_lua_lines (app_id : String) (depots : List (String × String))
    (manifests : List String) (fl : Bool) (mf d t : String)
    (hmem : mf ∈ manifests) (hmatch : match_manifest mf = some (d, t)) :
    ((("--" ++ manifest_pin_line d t) ∈ st_lua_lines app_id depots manifests fl)
        ↔ fl = true)
    ∧ ((manifest_pin_line d t ∈ st_lua_lines app_id depots manifests fl)
        ↔ fl = false) := by
  constructor
  · constructor
    · intro hx
      cases fl with
      | true => rfl
      | false =>
        exfalso
        unfold st_lua_lines at hx
        rcases List.mem_cons.mp hx with h | h
        · exact ne_of_head_ne (by rw [comment_head, bootstrap_head]; decide) h
        · rcases List.mem_append.mp h with h2 | h2
          · obtain ⟨p, _, hp⟩ := List.mem_map.mp h2
            exact ne_of_head_ne (by rw [add3_head, comment_head]; decide) hp
          · obtain ⟨mf2, hmf2, hg⟩ := List.mem_filterMap.mp h2
            cases hm2 : match_manifest mf2 with
            | none => rw [hm2] at hg; simp at hg
            | some dt =>
              rw [hm2] at hg
              simp only [Option.map_some', Option.some.injEq, if_neg,
                Bool.false_eq_true, ite_false] at hg
              exact ne_of_head_ne (by rw [pin_head, comment_head]; decide) hg
    · intro hfl
      unfold st_lua_lines
      refine List.mem_cons_of_mem _ (List.mem_append_right _ ?_)
      refine List.mem_filterMap.mpr ⟨mf, hmem, ?_⟩
      rw [hmatch, hfl]
      simp
  · constructor
    · intro hx
      cases fl with
      | false => rfl
      | true =>
        exfalso
        unfold st_lua_lines at hx
        rcases List.mem_cons.mp hx with h | h
        · exact ne_of_head_ne (by rw [pin_head, bootstrap_head]; decide) h
        · rcases List.mem_append.mp h with h2 | h2
          · obtain ⟨p, _, hp⟩ := List.mem_map.mp h2
            exact ne_of_head_ne (by rw [add3_head, pin_head]; decide) hp
          · obtain ⟨mf2, hmf2, hg⟩ := List.mem_filterMap.mp h2
            cases hm2 : match_manifest mf2 with
            | none => rw [hm2] at hg; simp at hg
            | some dt =>
              rw [hm2] at hg
              simp only [Option.map_some', Option.some.injEq, ite_true] at hg
              exact ne_of_head_ne (by rw [comment_head, pin_head]; decide) hg
    · intro hfl
      unfold st_lua_lines
      refine List.mem_cons_of_mem _ (List.mem_append_right _ ?_)
      refine List.mem_filterMap.mpr ⟨mf, hmem, ?_⟩
      rw [hmatch, hfl]
      simp

/-- C4: in both the tree-based and the archive-based synthesis paths, a
manifest-pin directive appears in the synthesized script as an inert
comment exactly when mode is ScriptBased, auto-update is enabled and the
lock override is off (Floating), and appears active exactly when the
script is synthesized under any other combination (Locked). -/
theorem c4_version_policy
    (st auto lock : Bool) (app_id : String)
    (vdf_depots scan_depots : List (String × String))
    (manifests : List String) (mf d t : String)
    (happ : app_id ≠ "")
    (hmem : mf ∈ manifests)
    (hmatch : match_manifest mf = some (d, t)) :
    ((("--" ++ manifest_pin_line d t)
        ∈ ((get_manifest_from_github st auto lock "key.vdf" app_id manifests
            (GmFetch.ok (some vdf_depots))).lua).getD [])
      ↔ ((st && auto) && !lock) = true)
    ∧ ((manifest_pin_line d t
        ∈ ((get_manifest_from_github st auto lock "key.vdf" app_id manifests
            (GmFetch.ok (some vdf_depots))).lua).getD [])
      ↔ (st = true ∧ ((st && auto) && !lock) = false))
    ∧ ((("--" ++ manifest_pin_line d t)
        ∈ (zip_st_script st auto lock app_id scan_depots manifests).getD [])
      ↔ ((st && auto) && !lock) = true)
    ∧ ((manifest_pin_line d t
        ∈ (zip_st_script st auto lock app_id scan_depots manifests).getD [])
      ↔ (st = true ∧ ((st && auto) && !lock) = false)) := by
  have happb : (app_id != "") = true := by
    simp [bne_iff_ne]
    exact happ
  have hends : str_ends_with "key.vdf" ".manifest" = false := by decide
  have hsub : list_contains_sub (str_lower "key.vdf") "key.vdf".data = true := by decide
  cases st with
  | false =>
    have htree : (get_manifest_from_github false auto lock "key.vdf" app_id manifests
        (GmFetch.ok (some vdf_depots))).lua = none := by
      simp [get_manifest_from_github, hends, hsub]
    have hzip : zip_st_script false auto lock app_id scan_depots manifests = none := by
      simp [zip_st_script]
    rw [htree, hzip]
    simp
  | true =>
    have htree : (get_manifest_from_github true auto lock "key.vdf" app_id manifests
        (GmFetch.ok (some vdf_depots))).lua
        = some (st_lua_lines app_id vdf_depots manifests ((true && auto) && !lock)) := by
      simp [get_manifest_from_github, hends, hsub, happb]
    have hzip : zip_st_script true auto lock app_id scan_depots manifests
        = some (st_lua_lines app_id scan_depots manifests ((true && auto) && !lock)) := by
      simp [zip_st_script]
    rw [htree, hzip]
    have h1 := pin_mem_st_lua_lines app_id vdf_depots manifests ((true && auto) && !lock)
      mf d t hmem hmatch
    have h2 := pin_mem_st_lua_lines app_id scan_depots manifests ((true && auto) && !lock)
      mf d t hmem hmatch
    simp only [Option.getD_some]
    refine ⟨h1.1, ?_, h2.1, ?_⟩
    · rw [h1.2]
      simp
    · rw [h2.2]
      simp

/-- C4 witness: concrete instance — ScriptBased with auto-update on and
lock off comments the pin directive out in the tree path. -/
theorem c4_version_policy_witness :
    ("--" ++ manifest_pin_line "480" "abc")
      ∈ ((get_manifest_from_github true true false "key.vdf" "480" ["480_abc.manifest"]
          (GmFetch.ok (some []))).lua).getD [] :=
  ((c4_version_policy true true false "480" [] [] ["480_abc.manifest"]
      "480_abc.manifest" "480" "abc" (by decide) (by decide) (by decide)).1).mpr rfl

/-- Outcome of one HTTP GET in get_from_url: exc models a raised
connection error or timeout, resp a completed response with its status
code and body bytes. -/
inductive HttpOutcome where
  | exc
  | resp (status : Nat) (body : List Nat)
deriving DecidableEq

/-- The ordered candidate URL list of get_from_url (backend_gui.py lines
438-444): two CDN mirrors when the region flag favors mirrors, otherwise
the one direct URL. -/
def candidate_urls (is_cn : Bool) (sha path repo : String) : List String :=
  if is_cn then
    ["https://cdn.jsdmirror.com/gh/" ++ (repo ++ ("@" ++ (sha ++ ("/" ++ path)))),
     "https://raw.gitmirror.com/" ++ (repo ++ ("/" ++ (sha ++ ("/" ++ path))))]
  else
    ["https://raw.githubusercontent.com/" ++ (repo ++ ("/" ++ (sha ++ ("/" ++ path))))]

/-- Whether an outcome is a status-200 response. -/
def is_ok200 : HttpOutcome → Bool
  | .resp s _ => s == 200
  | .exc => false

/-- The retry loop of get_from_url (lines 446-461): request each candidate
in order, return the body of the first status-200 response, treat non-200
statuses and connection errors alike as failures of that candidate, and
raise an aggregated error once every candidate has failed. -/
def fetch_loop (client : String → HttpOutcome) : List String → Except String (List Nat)
  | [] => .error "all sources failed"
  | u :: rest =>
    match client u with
    | .resp s b => if s == 200 then .ok b else fetch_loop client rest
    | .exc => fetch_loop client rest

/-- Shallow embedding of GuiBackend.get_from_url (backend_gui.py lines
436-461), over a client abstracted as a function from URL to outcome. -/
def get_from_url (client : String → HttpOutcome) (is_cn : Bool)
    (sha path repo : String) : Except String (List Nat) :=
  fetch_loop client (candidate_urls is_cn sha path repo)

/-- Helper: the retry loop returns ok b exactly when some candidate gets a
200 response with body b and every earlier candidate failed. -/
theorem fetch_loop_ok_iff (client : String → HttpOutcome) (urls : List String)
    (b : List Nat) :
    fetch_loop client urls = .ok b ↔
      ∃ pre u post, urls = pre ++ u :: post ∧ client u = HttpOutcome.resp 200 b
        ∧ ∀ v ∈ pre, is_ok200 (client v) = false := by
  induction urls with
  | nil =>
    constructor
    · intro h
      exact absurd h (by simp [fetch_loop])
    · rintro ⟨pre, u, post, habs, -, -⟩
      cases pre <;> simp at habs
  | cons w rest ih =>
    cases hw : client w with
    | exc =>
      rw [show fetch_loop client (w :: rest) = fetch_loop client rest from by
        simp [fetch_loop, hw]]
      rw [ih]
      constructor
      · rintro ⟨pre, u, post, heq, hu, hpre⟩
        refine ⟨w :: pre, u, post, by rw [heq]; rfl, hu, ?_⟩
        intro v hv
        rcases List.mem_cons.mp hv with rfl | hv
        · simp [is_ok200, hw]
        · exact hpre v hv
      · rintro ⟨pre, u, post, heq, hu, hpre⟩
        cases pre with
        | nil =>
          simp only [List.nil_append, List.cons.injEq] at heq
          rw [← heq.1, hw] at hu
          cases hu
        | cons p ps =>
          simp only [List.cons_append, List.cons.injEq] at heq
          exact ⟨ps, u, post, heq.2, hu,
            fun v hv => hpre v (List.mem_cons_of_mem p hv)⟩
    | resp s body =>
      by_cases hs : s = 200
      · subst hs
        constructor
        · intro h
          have hb : body = b := by
            have : Except.ok (ε := String) body = Except.ok b := by
              rw [← h]; simp [fetch_loop, hw]
            simpa using this
          refine ⟨[], w, rest, rfl, by rw [hw, hb], ?_⟩
          intro v hv
          cases hv
        · rintro ⟨pre, u, post, heq, hu, hpre⟩
          cases pre with
          | nil =>
            simp only [List.nil_append, List.cons.injEq] at heq
            rw [← heq.1, hw] at hu
            have hb : body = b := by
              injection hu with _ hb
            simp [fetch_loop, hw, hb]
          | cons p ps =>
            simp only [List.cons_append, List.cons.injEq] at heq
            have := hpre p (List.mem_cons_self p ps)
            rw [← heq.1, hw] at this
            simp [is_ok200] at this
      · have hsb : (s == 200) = false := by simp [hs]
        rw [show fetch_loop client (w :: rest) = fetch_loop client rest from by
          simp [fetch_loop, hw, hsb]]
        rw [ih]
        constructor
        · rintro ⟨pre, u, post, heq, hu, hpre⟩
          refine ⟨w :: pre, u, post, by rw [heq]; rfl, hu, ?_⟩
          intro v hv
          rcases List.mem_cons.mp hv with rfl | hv
          · simp [is_ok200, hw, hsb]
          · exact hpre v hv
        · rintro ⟨pre, u, post, heq, hu, hpre⟩
          cases pre with
          | nil =>
            simp only [List.nil_append, List.cons.injEq] at heq
            rw [← heq.1, hw] at hu
            injection hu with hs200 _
            exact absurd hs200 hs
          | cons p ps =>
            simp only [List.cons_append, List.cons.injEq] at heq
            exact ⟨ps, u, post, heq.2, hu,
              fun v hv => hpre v (List.mem_cons_of_mem p hv)⟩

/-- Helper: the retry loop raises exactly when every candidate fails. -/
theorem fetch_loop_error_iff (client : String → HttpOutcome) (urls : List String) :
    (∃ e, fetch_loop client urls = .error e) ↔
      ∀ u ∈ urls, is_ok200 (client u) = false := by
  induction urls with
  | nil => simp [fetch_loop]
  | cons w rest ih =>
    cases hw : client w with
    | exc =>
      simp only [fetch_loop, hw, List.mem_cons, forall_eq_or_imp]
      rw [ih]
      simp [is_ok200, hw]
    | resp s body =>
      by_cases hs : s = 200
      · subst hs
        simp [fetch_loop, hw, is_ok200]
      · have hsb : (s == 200) = false := by simp [hs]
        simp only [fetch_loop, hw, hsb, List.mem_cons, forall_eq_or_imp]
        rw [if_neg (by simp [hs])]
        rw [ih]
        simp [is_ok200, hw, hsb]

/-- C6: fetchContent builds two mirror candidates when the region flag
favors mirrors and one direct URL otherwise; it returns the body of the
first status-200 response, raises only after every candidate failed, and
in particular a timeout on the first mirror followed by a 200 on the
second yields the second response's bytes. -/
theorem c6_fetch_fallback :
    (∀ sha path repo, (candidate_urls true sha path repo).length = 2
      ∧ (candidate_urls false sha path repo).length = 1)
    ∧ (∀ (client : String → HttpOutcome) (is_cn : Bool) (sha path repo : String)
        (b : List Nat),
        get_from_url client is_cn sha path repo = .ok b ↔
          ∃ pre u post, candidate_urls is_cn sha path repo = pre ++ u :: post
            ∧ client u = HttpOutcome.resp 200 b
            ∧ ∀ v ∈ pre, is_ok200 (client v) = false)
    ∧ (∀ (client : String → HttpOutcome) (is_cn : Bool) (sha path repo : String),
        (∃ e, get_from_url client is_cn sha path repo = .error e) ↔
          ∀ u ∈ candidate_urls is_cn sha path repo, is_ok200 (client u) = false)
    ∧ get_from_url
        (fun u => if u = "https://cdn.jsdmirror.com/gh/r@s/p" then HttpOutcome.exc
          else HttpOutcome.resp 200 [42]) true "s" "p" "r" = .ok [42] := by
  refine ⟨?_, ?_, ?_, by rfl⟩
  · intro sha path repo
    exact ⟨rfl, rfl⟩
  · intro client is_cn sha path repo b
    exact fetch_loop_ok_iff client (candidate_urls is_cn sha path repo) b
  · intro client is_cn sha path repo
    exact fetch_loop_error_iff client (candidate_urls is_cn sha path repo)

/-- One result of search_all_repos: the source repository, the branch
commit sha, the tree listing, and the commit author date used for
ranking (ISO-8601 strings compare chronologically as strings, exactly as
the source compares them). -/
structure RepoResult where
  repo : String
  sha : String
  tree : List String
  update_date : String
deriving DecidableEq

/-- Shallow embedding of GuiBackend.search_all_repos (backend_gui.py lines
505-536): every configured repository is queried in input order with no
early exit; the per-repository outcome (branch found, commit and tree
resolved) is abstracted as an oracle returning sha, tree and update date. -/
def search_all_repos (oracle : String → Option (String × List String × String))
    (repos : List String) : List RepoResult :=
  repos.filterMap (fun repo =>
    (oracle repo).map (fun x => ⟨repo, x.1, x.2.1, x.2.2⟩))

/-- Stable descending insertion: the new element passes over every earlier
element whose key is not strictly smaller, exactly the placement produced
by Python's stable list.sort with reverse=True. -/
def insert_desc (x : RepoResult) : List RepoResult → List RepoResult
  | [] => [x]
  | y :: ys =>
    if y.update_date < x.update_date then x :: y :: ys
    else y :: insert_desc x ys

/-- The repo_results.sort(key=update_date, reverse=True) of
process_by_searching_all (line 1000), as a stable descending sort. -/
def py_sort_desc (l : List RepoResult) : List RepoResult :=
  l.foldl (fun acc x => insert_desc x acc) []

/-- The selection repo_results[0] after the descending sort (line 1001). -/
def select_latest (l : List RepoResult) : Option RepoResult :=
  (py_sort_desc l).head?

/-- Reference scan: the first element with maximal key, carrying the
current best (earlier elements win ties because only a strictly greater
key replaces the best). -/
def fm_aux (best : RepoResult) : List RepoResult → RepoResult
  | [] => best
  | x :: xs => fm_aux (if best.update_date < x.update_date then x else best) xs

/-- Helper: the head after a stable descending insertion. -/
theorem insert_desc_head (x : RepoResult) (acc : List RepoResult) :
    (insert_desc x acc).head? = some (match acc.head? with
      | none => x
      | some h => if h.update_date < x.update_date then x else h) := by
  cases acc with
  | nil => rfl
  | cons y ys =>
    simp only [insert_desc, List.head?_cons]
    by_cases h : y.update_date < x.update_date
    · simp [h]
    · simp [h]

/-- Helper: the head of the sorting fold is the first maximum. -/
theorem sort_head (l : List RepoResult) :
    ∀ (acc : List RepoResult) (h : RepoResult), acc.head? = some h →
      (l.foldl (fun a x => insert_desc x a) acc).head? = some (fm_aux h l) := by
  induction l with
  | nil =>
    intro acc h hh
    simpa [fm_aux] using hh
  | cons x xs ih =>
    intro acc h hh
    have hstep : (insert_desc x acc).head?
        = some (if h.update_date < x.update_date then x else h) := by
      rw [insert_desc_head, hh]
    have hrec := ih (insert_desc x acc) (if h.update_date < x.update_date then x else h) hstep
    simpa [List.foldl_cons, fm_aux] using hrec

/-- Helper: selection on a nonempty list is the first maximum. -/
theorem select_latest_eq (p : RepoResult) (rest : List RepoResult) :
    select_latest (p :: rest) = some (fm_aux p rest) := by
  unfold select_latest py_sort_desc
  rw [List.foldl_cons]
  exact sort_head rest (insert_desc p []) p rfl

/-- Helper: the first maximum is the carried best or a list element. -/
theorem fm_aux_mem (l : List RepoResult) : ∀ b, fm_aux b l = b ∨ fm_aux b l ∈ l := by
  induction l with
  | nil => intro b; exact Or.inl rfl
  | cons x xs ih =>
    intro b
    simp only [fm_aux]
    by_cases h : b.update_date < x.update_date
    · rw [if_pos h]
      rcases ih x with h1 | h1
      · exact Or.inr (by rw [h1]; exact List.mem_cons_self x xs)
      · exact Or.inr (List.mem_cons_of_mem x h1)
    · rw [if_neg h]
      rcases ih b with h1 | h1
      · exact Or.inl h1
      · exact Or.inr (List.mem_cons_of_mem x h1)

/-- Helper: the first maximum dominates the carried best and every list
element. -/
theorem fm_aux_max (l : List RepoResult) : ∀ b,
    b.update_date ≤ (fm_aux b l).update_date
    ∧ ∀ r ∈ l, r.update_date ≤ (fm_aux b l).update_date := by
  induction l with
  | nil =>
    intro b
    exact ⟨le_refl _, fun r hr => absurd hr (List.not_mem_nil r)⟩
  | cons x xs ih =>
    intro b
    simp only [fm_aux]
    by_cases h : b.update_date < x.update_date
    · rw [if_pos h]
      obtain ⟨h1, h2⟩ := ih x
      refine ⟨le_trans (le_of_lt h) h1, ?_⟩
      intro r hr
      rcases List.mem_cons.mp hr with rfl | hr
      · exact h1
      · exact h2 r hr
    · rw [if_neg h]
      obtain ⟨h1, h2⟩ := ih b
      refine ⟨h1, ?_⟩
      intro r hr
      rcases List.mem_cons.mp hr with rfl | hr
      · exact le_trans (le_of_not_lt h) h1
      · exact h2 r hr

/-- Helper: everything placed before the first maximum is strictly
smaller — the tie-break by input order. -/
theorem fm_aux_first (l : List RepoResult) : ∀ b,
    fm_aux b l = b
    ∨ ∃ pre post, l = pre ++ fm_aux b l :: post
        ∧ b.update_date < (fm_aux b l).update_date
        ∧ ∀ r ∈ pre, r.update_date < (fm_aux b l).update_date := by
  induction l with
  | nil => intro b; exact Or.inl rfl
  | cons x xs ih =>
    intro b
    simp only [fm_aux]
    by_cases h : b.update_date < x.update_date
    · rw [if_pos h]
      rcases ih x with h1 | ⟨pre, post, heq, hlt, hpre⟩
      · right
        refine ⟨[], xs, ?_, ?_, ?_⟩
        · rw [h1]; rfl
        · rw [h1]; exact h
        · intro r hr; cases hr
      · right
        refine ⟨x :: pre, post, ?_, lt_trans h hlt, ?_⟩
        · rw [List.cons_append, ← heq]
        · intro r hr
          rcases List.mem_cons.mp hr with rfl | hr
          · exact hlt
          · exact hpre r hr
    · rw [if_neg h]
      rcases ih b with h1 | ⟨pre, post, heq, hlt, hpre⟩
      · exact Or.inl h1
      · right
        refine ⟨x :: pre, post, ?_, hlt, ?_⟩
        · rw [List.cons_append, ← heq]
        · intro r hr
          rcases List.mem_cons.mp hr with rfl | hr
          · exact lt_of_le_of_lt (le_of_not_lt h) hlt
          · exact hpre r hr

/-- C7: every configured source is queried with no early exit (any hit is
recorded in the result list), the selected result is a member with the
most recent update timestamp and is the first such in input order, and
for three results with timestamps T1 less than T2 less than T3 the
selection is the third. -/
theorem c7_ranking :
    (∀ (oracle : String → Option (String × List String × String)) (repos : List String)
        (repo : String) (x : String × List String × String),
        repo ∈ repos → oracle repo = some x →
        (⟨repo, x.1, x.2.1, x.2.2⟩ : RepoResult) ∈ search_all_repos oracle repos)
    ∧ (∀ (rs : List RepoResult) (sel : RepoResult), select_latest rs = some sel →
        sel ∈ rs
        ∧ (∀ r ∈ rs, r.update_date ≤ sel.update_date)
        ∧ ∃ pre post, rs = pre ++ sel :: post
            ∧ ∀ r ∈ pre, r.update_date < sel.update_date)
    ∧ (∀ r1 r2 r3 : RepoResult,
        r1.update_date < r2.update_date → r2.update_date < r3.update_date →
        select_latest [r1, r2, r3] = some r3) := by
  refine ⟨?_, ?_, ?_⟩
  · intro oracle repos repo x hmem hx
    exact List.mem_filterMap.mpr ⟨repo, hmem, by rw [hx]; rfl⟩
  · intro rs sel hsel
    cases rs with
    | nil => simp [select_latest, py_sort_desc] at hsel
    | cons p rest =>
      rw [select_latest_eq] at hsel
      have hsel' : fm_aux p rest = sel := by injection hsel
      subst hsel'
      refine ⟨?_, ?_, ?_⟩
      · rcases fm_aux_mem rest p with h1 | h1
        · rw [h1]; exact List.mem_cons_self p rest
        · exact List.mem_cons_of_mem p h1
      · obtain ⟨hb, hall⟩ := fm_aux_max rest p
        intro r hr
        rcases List.mem_cons.mp hr with rfl | hr
        · exact hb
        · exact hall r hr
      · rcases fm_aux_first rest p with h1 | ⟨pre, post, heq, hlt, hpre⟩
        · refine ⟨[], rest, ?_, ?_⟩
          · rw [h1]; rfl
          · intro r hr; cases hr
        · refine ⟨p :: pre, post, ?_, ?_⟩
          · rw [List.cons_append, ← heq]
          · intro r hr
            rcases List.mem_cons.mp hr with rfl | hr
            · exact hlt
            · exact hpre r hr
  · intro r1 r2 r3 h12 h23
    rw [select_latest_eq]
    simp [fm_aux, h12, h23]

/-- C7 witness: with three concrete results dated in increasing order the
third is selected, and a hit from a queried source appears in the search
results. -/
theorem c7_ranking_witness :
    select_latest [⟨"r1", "s1", [], "2024-01-01"⟩, ⟨"r2", "s2", [], "2024-02-01"⟩,
        ⟨"r3", "s3", [], "2024-03-01"⟩] = some ⟨"r3", "s3", [], "2024-03-01"⟩
    ∧ (⟨"repo1", "sha", [], "d"⟩ : RepoResult)
        ∈ search_all_repos
          (fun r => if r = "repo1" then some ("sha", [], "d") else none) ["repo1"] :=
  ⟨c7_ranking.2.2 ⟨"r1", "s1", [], "2024-01-01"⟩ ⟨"r2", "s2", [], "2024-02-01"⟩
      ⟨"r3", "s3", [], "2024-03-01"⟩
      (by show ("2024-01-01" : String) < "2024-02-01"
          rw [String.lt_iff_toList_lt]; decide)
      (by show ("2024-02-01" : String) < "2024-03-01"
          rw [String.lt_iff_toList_lt]; decide),
    c7_ranking.1 (fun r => if r = "repo1" then some ("sha", [], "d") else none)
      ["repo1"] "repo1" ("sha", [], "d") (by decide) (by rfl)⟩

/-- Python dict lookup over an insertion-ordered association list. -/
def dict_lookup (d : List (String × String)) (k : String) : Option String :=
  match d with
  | [] => none
  | (a, b) :: rest => if a = k then some b else dict_lookup rest k

/-- Python dict item assignment: overwrite in place when the key exists,
append otherwise. -/
def dict_set (d : List (String × String)) (k v : String) : List (String × String) :=
  match d with
  | [] => [(k, v)]
  | (a, b) :: rest => if a = k then (k, v) :: rest else (a, b) :: dict_set rest k v

/-- Python dict.update: assign each pair of the update list in order. -/
def dict_update (d upd : List (String × String)) : List (String × String) :=
  upd.foldl (fun acc p => dict_set acc p.1 p.2) d

/-- Helper: assignment makes the key resolve to the assigned value. -/
theorem dict_lookup_set_self (d : List (String × String)) (k v : String) :
    dict_lookup (dict_set d k v) k = some v := by
  induction d with
  | nil => simp [dict_set, dict_lookup]
  | cons p rest ih =>
    obtain ⟨a, b⟩ := p
    by_cases h : a = k
    · simp [dict_set, h, dict_lookup]
    · simp [dict_set, h, dict_lookup, ih]

/-- Helper: assignment leaves every other key unchanged. -/
theorem dict_lookup_set_other (d : List (String × String)) (k v q : String)
    (h : k ≠ q) : dict_lookup (dict_set d k v) q = dict_lookup d q := by
  induction d with
  | nil => simp [dict_set, dict_lookup, h]
  | cons p rest ih =>
    obtain ⟨a, b⟩ := p
    by_cases ha : a = k
    · subst ha
      simp [dict_set, dict_lookup, h, ih]
    · simp [dict_set, ha, dict_lookup, ih]

/-- Helper: lookup distributes over list append of association lists. -/
theorem dict_lookup_append (l1 l2 : List (String × String)) (q : String) :
    dict_lookup (l1 ++ l2) q
      = (match dict_lookup l1 q with
         | some v => some v
         | none => dict_lookup l2 q) := by
  induction l1 with
  | nil => simp [dict_lookup]
  | cons p rest ih =>
    obtain ⟨a, b⟩ := p
    by_cases h : a = q
    · simp [dict_lookup, h]
    · simp [dict_lookup, h, ih]

/-- Helper: after dict.update, a key resolves to its last assignment in
the update list, falling back to the original dictionary. -/
theorem dict_lookup_update (upd : List (String × String)) :
    ∀ (d : List (String × String)) (q : String),
      dict_lookup (dict_update d upd) q
        = (match dict_lookup upd.reverse q with
           | some v => some v
           | none => dict_lookup d q) := by
  induction upd with
  | nil => intro d q; simp [dict_update, dict_lookup]
  | cons p rest ih =>
    intro d q
    obtain ⟨a, b⟩ := p
    have hstep : dict_update d ((a, b) :: rest) = dict_update (dict_set d a b) rest := rfl
    rw [hstep, ih]
    have hrev : ((a, b) :: rest).reverse = rest.reverse ++ [(a, b)] := by simp
    rw [hrev, dict_lookup_append]
    cases hr : dict_lookup rest.reverse q with
    | some v => rfl
    | none =>
      by_cases h : a = q
      · subst h
        simp [dict_lookup, dict_lookup_set_self]
      · simp [dict_lookup, h, dict_lookup_set_other d a b q h]

/-- The vendor section of the externally-owned config.vdf: its map of
depots (absent until created) and its other entries, both opaque. -/
structure SteamSection where
  depots : Option (List (String × String))
  rest : List (String × String)
deriving DecidableEq

/-- The externally-owned config.vdf as the merge engine sees it: the
InstallConfigStore/Software nesting is abstracted into the two possible
vendor-section spellings Valve and valve plus the untouched remainder of
the Software node and of the top level. -/
structure VdfConfig where
  valveU : Option SteamSection
  valveL : Option SteamSection
  softwareRest : List (String × String)
  topRest : List (String × String)
deriving DecidableEq

/-- Python truthiness of a parsed section: an empty dict is falsy. -/
def section_truthy (s : SteamSection) : Bool := !(s.depots.isNone && s.rest.isEmpty)

/-- The section lookup of depotkey_merge (backend_gui.py lines 691-700):
get Valve or valve, where the Python or-chain skips falsy values, then
fail when nothing truthy was found. -/
def locate_valve (c : VdfConfig) : Option SteamSection :=
  match c.valveU with
  | some s =>
    if section_truthy s then some s
    else
      match c.valveL with
      | some s2 => if section_truthy s2 then some s2 else none
      | none => none
  | none =>
    match c.valveL with
    | some s2 => if section_truthy s2 then some s2 else none
    | none => none

/-- The merge step of depotkey_merge (lines 703-706): create the depots
map when absent, then dict.update it with the new keys. -/
def merge_into (s : SteamSection) (new : List (String × String)) : SteamSection :=
  { s with depots := some (dict_update (s.depots.getD []) new) }

/-- Shallow embedding of GuiBackend.depotkey_merge (backend_gui.py lines
677-721): none models a missing config.vdf file; missing (or falsy)
vendor section returns false leaving the config untouched; otherwise the
located section's depots map is updated in place and the call reports
success.  The depot values carry the DecryptionKey strings. -/
def depotkey_merge (cfg : Option VdfConfig) (new : List (String × String)) :
    Bool × Option VdfConfig :=
  match cfg with
  | none => (false, none)
  | some c =>
    match c.valveU with
    | some s =>
      if section_truthy s then (true, some { c with valveU := some (merge_into s new) })
      else
        match c.valveL with
        | some s2 =>
          if section_truthy s2 then
            (true, some { c with valveL := some (merge_into s2 new) })
          else (false, some c)
        | none => (false, some c)
    | none =>
      match c.valveL with
      | some s2 =>
        if section_truthy s2 then
          (true, some { c with valveL := some (merge_into s2 new) })
        else (false, some c)
      | none => (false, some c)

/-- C8: mergeKeys inserts or overwrites exactly the depot entries named by
its input (each key resolving to its last given value, all other depot
entries and the section's other entries unchanged, all unrelated config
parts unchanged by construction of the result), and returns false without
modifying anything when the config file or its vendor section is missing. -/
theorem c8_merge_frame :
    (∀ new, depotkey_merge none new = (false, none))
    ∧ (∀ c new, locate_valve c = none → depotkey_merge (some c) new = (false, some c))
    ∧ (∀ c s new, c.valveU = some s → section_truthy s = true →
        depotkey_merge (some c) new
          = (true, some { c with valveU := some (merge_into s new) })
        ∧ (merge_into s new).rest = s.rest
        ∧ ∀ q, dict_lookup ((merge_into s new).depots.getD []) q
            = (match dict_lookup new.reverse q with
               | some v => some v
               | none => dict_lookup (s.depots.getD []) q))
    ∧ (∀ c s new,
        (c.valveU = none ∨ ∃ su, c.valveU = some su ∧ section_truthy su = false) →
        c.valveL = some s → section_truthy s = true →
        depotkey_merge (some c) new
          = (true, some { c with valveL := some (merge_into s new) })
        ∧ (merge_into s new).rest = s.rest
        ∧ ∀ q, dict_lookup ((merge_into s new).depots.getD []) q
            = (match dict_lookup new.reverse q with
               | some v => some v
               | none => dict_lookup (s.depots.getD []) q)) := by
  refine ⟨fun new => rfl, ?_, ?_, ?_⟩
  · intro c new hloc
    cases hU : c.valveU with
    | some s =>
      by_cases hts : section_truthy s = true
      · exfalso
        simp [locate_valve, hU, hts] at hloc
      · cases hL : c.valveL with
        | some s2 =>
          by_cases hts2 : section_truthy s2 = true
          · exfalso
            simp [locate_valve, hU, hL, hts, hts2] at hloc
          · simp [depotkey_merge, hU, hL, hts, hts2]
        | none => simp [depotkey_merge, hU, hL, hts]
    | none =>
      cases hL : c.valveL with
      | some s2 =>
        by_cases hts2 : section_truthy s2 = true
        · exfalso
          simp [locate_valve, hU, hL, hts2] at hloc
        · simp [depotkey_merge, hU, hL, hts2]
      | none => simp [depotkey_merge, hU, hL]
  · intro c s new hU hts
    refine ⟨?_, rfl, ?_⟩
    · unfold depotkey_merge
      simp [hU, hts]
    · intro q
      show dict_lookup (dict_update (s.depots.getD []) new) q = _
      exact dict_lookup_update new (s.depots.getD []) q
  · intro c s new hUfail hL hts
    refine ⟨?_, rfl, ?_⟩
    · unfold depotkey_merge
      rcases hUfail with hU | ⟨su, hU, hsu⟩
      · simp [hU, hL, hts]
      · simp [hU, hsu, hL, hts]
    · intro q
      show dict_lookup (dict_update (s.depots.getD []) new) q = _
      exact dict_lookup_update new (s.depots.getD []) q

/-- C8 witness: a concrete merge overwrites nothing but the named depot,
appends it to the existing map, and reports success. -/
theorem c8_merge_frame_witness :
    depotkey_merge (some ⟨some ⟨some [("100", "aaa")], []⟩, none, [], []⟩)
        [("481", "deadbeef")]
      = (true, some ⟨some ⟨some [("100", "aaa"), ("481", "deadbeef")], []⟩, none, [], []⟩)
    ∧ dict_lookup
        ((merge_into ⟨some [("100", "aaa")], []⟩ [("481", "deadbeef")]).depots.getD [])
        "481" = some "deadbeef"
    ∧ dict_lookup
        ((merge_into ⟨some [("100", "aaa")], []⟩ [("481", "deadbeef")]).depots.getD [])
        "100" = some "aaa" := by
  have h := c8_merge_frame.2.2.1 ⟨some ⟨some [("100", "aaa")], []⟩, none, [], []⟩
    ⟨some [("100", "aaa")], []⟩ [("481", "deadbeef")] rfl rfl
  exact ⟨h.1.trans (by decide), (h.2.2 "481").trans (by decide),
    (h.2.2 "100").trans (by decide)⟩

/-- One attempt of the two-argument key pattern used by the GreenLuma
branch (backend_gui.py line 881) — literal addappid open-paren, digit
group, comma, optional whitespace, quoted non-empty group, close-paren —
at the start of the character list; returns the groups and the remainder
after the match.  Maximal runs model the greedy groups, which never need
backtracking here. -/
def try_addappid2 (l : List Char) : Option (String × String × List Char) :=
  if "addappid(".data.isPrefixOf l then
    let r0 := l.drop 9
    let ds := r0.takeWhile Char.isDigit
    if ds.isEmpty then none
    else
      match r0.drop ds.length with
      | ',' :: r2 =>
        match r2.dropWhile isPySpace with
        | '"' :: r4 =>
          let ks := r4.takeWhile (· != '"')
          if ks.isEmpty then none
          else
            match r4.drop ks.length with
            | '"' :: ')' :: r6 => some (String.mk ds, String.mk ks, r6)
            | _ => none
        | _ => none
      | _ => none
  else none

/-- One attempt of the three-argument key pattern used by the SteamTools
branch (backend_gui.py line 834) — as above but with the literal flag
argument 1 between the depot id and the quoted key. -/
def try_addappid3 (l : List Char) : Option (String × String × List Char) :=
  if "addappid(".data.isPrefixOf l then
    let r0 := l.drop 9
    let ds := r0.takeWhile Char.isDigit
    if ds.isEmpty then none
    else
      match r0.drop ds.length with
      | ',' :: r2 =>
        match r2.dropWhile isPySpace with
        | '1' :: ',' :: r3 =>
          match r3.dropWhile isPySpace with
          | '"' :: r4 =>
            let ks := r4.takeWhile (· != '"')
            if ks.isEmpty then none
            else
              match r4.drop ks.length with
              | '"' :: ')' :: r6 => some (String.mk ds, String.mk ks, r6)
              | _ => none
          | _ => none
        | _ => none
      | _ => none
  else none

/-- re.finditer loop for the two-argument pattern: try each position,
resume after a match.  The fuel starts at the input length; every step
consumes at least one character, so it never runs out before the input. -/
def scan2_aux : Nat → List Char → List (String × String)
  | 0, _ => []
  | _ + 1, [] => []
  | fuel + 1, c :: rest =>
    match try_addappid2 (c :: rest) with
    | some (d, k, remaining) => (d, k) :: scan2_aux fuel remaining
    | none => scan2_aux fuel rest

/-- re.finditer loop for the three-argument pattern. -/
def scan3_aux : Nat → List Char → List (String × String)
  | 0, _ => []
  | _ + 1, [] => []
  | fuel + 1, c :: rest =>
    match try_addappid3 (c :: rest) with
    | some (d, k, remaining) => (d, k) :: scan3_aux fuel remaining
    | none => scan3_aux fuel rest

/-- All two-argument addappid matches of a script fragment, in order —
the key recovery scan of the GreenLuma branch (line 881). -/
def find_addappid2 (content : String) : List (String × String) :=
  scan2_aux content.data.length content.data

/-- All three-argument addappid matches of a script fragment, in order —
the key recovery scan of the SteamTools branch (line 834), and the form in
which the synthesizer itself writes key directives. -/
def find_addappid3 (content : String) : List (String × String) :=
  scan3_aux content.data.length content.data

/-- The all_depots accumulation of the GreenLuma branch (lines 875-884):
one dict assignment per two-argument match, over all script fragments. -/
def gl_collect (lua_contents : List String) : List (String × String) :=
  lua_contents.foldl (fun acc c => dict_update acc (find_addappid2 c)) []

/-- The argument the GreenLuma branch passes to the Config Merge Engine
(lines 864-891): none when no manifest file was extracted (hard failure
before any scan) or when the scan recovered nothing (depotkey_merge is
then never called); otherwise the recovered depot map. -/
def gl_branch_merge_arg (manifest_names lua_contents : List String) :
    Option (List (String × String)) :=
  if manifest_names.isEmpty then none
  else
    let all_depots := gl_collect lua_contents
    if all_depots.isEmpty then none else some all_depots

/-- C5 counterexample: a script fragment carrying depot key 481 in the
three-argument form — the very form the synthesizer writes and the
SteamTools branch scans — is not recovered by the FileDropBased branch,
whose two-argument scan finds nothing, so nothing is merged. -/
theorem c5_counterexample :
    find_addappid3 "addappid(481, 1, \"deadbeef\")" = [("481", "deadbeef")]
    ∧ find_addappid2 "addappid(481, 1, \"deadbeef\")" = []
    ∧ gl_branch_merge_arg ["480_abc.manifest"] ["addappid(481, 1, \"deadbeef\")"] = none := by
  refine ⟨by decide, by decide, by decide⟩

/-- Helper: dict.update keeps a key resolvable when the update or the base
resolves it. -/
theorem dict_lookup_update_isSome (d upd : List (String × String)) (q : String)
    (h : (dict_lookup upd.reverse q).isSome ∨ (dict_lookup d q).isSome) :
    (dict_lookup (dict_update d upd) q).isSome := by
  rw [dict_lookup_update]
  cases hr : dict_lookup upd.reverse q with
  | some v => simp
  | none =>
    rcases h with h | h
    · rw [hr] at h
      simp at h
    · simpa using h

/-- Helper: a key paired in an association list is resolvable. -/
theorem dict_lookup_isSome_of_mem (l : List (String × String)) (q v : String)
    (h : (q, v) ∈ l) : (dict_lookup l q).isSome := by
  induction l with
  | nil => cases h
  | cons p rest ih =>
    obtain ⟨a, b⟩ := p
    rcases List.mem_cons.mp h with heq | hmem
    · have ha : a = q := by
        have := congrArg Prod.fst heq
        exact this.symm
      simp [dict_lookup, ha]
    · by_cases hq : a = q
      · simp [dict_lookup, hq]
      · simp only [dict_lookup, hq, if_false]
        exact ih hmem

/-- Helper: a key matched in any fragment survives the whole folding
scan of the GreenLuma branch. -/
theorem gl_collect_aux (contents : List String) :
    ∀ (acc : List (String × String)) (q : String),
      ((∃ c ∈ contents, ∃ v, (q, v) ∈ find_addappid2 c)
          ∨ (dict_lookup acc q).isSome) →
      (dict_lookup
        (contents.foldl (fun a c => dict_update a (find_addappid2 c)) acc) q).isSome := by
  induction contents with
  | nil =>
    intro acc q h
    rcases h with ⟨c, hc, -⟩ | h
    · cases hc
    · simpa using h
  | cons c0 cs ih =>
    intro acc q h
    simp only [List.foldl_cons]
    apply ih
    rcases h with ⟨c, hc, v, hv⟩ | h
    · rcases List.mem_cons.mp hc with rfl | hc
      · right
        apply dict_lookup_update_isSome
        left
        exact dict_lookup_isSome_of_mem _ q v (List.mem_reverse.mpr hv)
      · left
        exact ⟨c, hc, v, hv⟩
    · right
      apply dict_lookup_update_isSome
      right
      exact h

/-- C5 amended: in the FileDropBased branch, every depot key that appears
in a retrieved or generated script fragment in the two-argument addappid
form is recovered by the scan and handed to the Config Merge Engine (keys
written in the three-argument form used by the script-based synthesizer
are not recovered, per the counterexample). -/
theorem c5_amended_key_recovery (manifest_names lua_contents : List String)
    (q v : String)
    (hman : manifest_names ≠ [])
    (hpresent : ∃ c ∈ lua_contents, (q, v) ∈ find_addappid2 c) :
    ∃ dict, gl_branch_merge_arg manifest_names lua_contents = some dict
      ∧ (dict_lookup dict q).isSome := by
  have hsome : (dict_lookup (gl_collect lua_contents) q).isSome := by
    apply gl_collect_aux
    left
    obtain ⟨c, hc, hv⟩ := hpresent
    exact ⟨c, hc, v, hv⟩
  have hm : manifest_names.isEmpty = false := by
    cases manifest_names with
    | nil => exact absurd rfl hman
    | cons a l => rfl
  have hc : (gl_collect lua_contents).isEmpty = false := by
    cases hg : gl_collect lua_contents with
    | nil =>
      rw [hg] at hsome
      simp [dict_lookup] at hsome
    | cons a l => rfl
  refine ⟨gl_collect lua_contents, ?_, hsome⟩
  simp [gl_branch_merge_arg, hm, hc]

/-- C5 witness: a fragment with the key in two-argument form is recovered
and the merge argument resolves the depot id. -/
theorem c5_amended_key_recovery_witness :
    ∃ dict, gl_branch_merge_arg ["480_abc.manifest"] ["addappid(481, \"deadbeef\")"]
        = some dict
      ∧ (dict_lookup dict "481").isSome :=
  c5_amended_key_recovery ["480_abc.manifest"] ["addappid(481, \"deadbeef\")"]
    "481" "deadbeef" (by decide)
    ⟨"addappid(481, \"deadbeef\")", by decide, by decide⟩

end Cai
